import Mathlib

/-!
Verification of the claude-talk audio server (`src/audio-server.py`).

This file gives a shallow embedding of the parts of the program the claims
are about:

* the echo-text filter `AudioEngine._strip_tts_echo` (a pure string
  algorithm, ported word for word);
* the barge-in detector loop of `barge_in_monitor` (a state machine over
  mic frames; a frame carries its measured RMS as an exact rational,
  abstracting the floating-point `sqrt(mean(frame**2))` computation);
* a transition system for one capture session covering the interleaving of
  the mic-callback producer, `barge_in_monitor`, `send_audio`, and the
  natural end of TTS (`tts_monitor`), as scheduled by the single-threaded
  event loop;
* the transcript accumulation step of `recv_transcription` (the bracketed
  hallucination-token substitution is the identity on all messages used
  here and is not modelled);
* the buffered-result handling of `drain_buffer` / `speak_and_listen` and
  the mute check of `AudioEngine.listen`.
-/

namespace ClaudeTalk

/-! ## Python string primitives

`pySplit` is Python's `str.split()` (split on whitespace runs, dropping
empty tokens), `pyRstrip` / `pyStrip` are `str.rstrip(chars)` /
`str.strip(chars)`, and `pyLower` is `str.lower()` (the source only ever
feeds it ASCII text; `Char.toLower` is the basic-latin lowering). -/

def splitWsAux : List Char → List Char → List (List Char)
  | [], acc => [acc.reverse]
  | c :: cs, acc =>
    if c.isWhitespace then acc.reverse :: splitWsAux cs []
    else splitWsAux cs (c :: acc)

def pySplit (s : String) : List String :=
  ((splitWsAux s.data []).filter (· ≠ [])).map (fun w => ⟨w⟩)

def pyRstrip (bad : List Char) (s : String) : String :=
  ⟨(s.data.reverse.dropWhile (· ∈ bad)).reverse⟩

def pyStrip (bad : List Char) (s : String) : String :=
  ⟨((s.data.dropWhile (· ∈ bad)).reverse.dropWhile (· ∈ bad)).reverse⟩

def pyLower (s : String) : String := ⟨s.data.map Char.toLower⟩

/-! ## The echo-text filter (`_strip_tts_echo`) -/

/-- The punctuation set `".,!?;:-—'\""` used by `w.rstrip(...)` on each
token in `_strip_tts_echo`. -/
def echoPunct : List Char := ['.', ',', '!', '?', ';', ':', '-', '—', Char.ofNat 39, '"']

/-- The set `" .,!?-—"` used by `remaining.strip(...)` in `_strip_tts_echo`. -/
def remStripChars : List Char := [' ', '.', ',', '!', '?', '-', '—']

/-- A token normalised the way `_strip_tts_echo` compares tokens:
trailing punctuation removed. -/
def normTok (w : String) : String := pyRstrip echoPunct w

/-- The inner `for j in range(min(...))` loop of `_strip_tts_echo`,
ported literally: `fuel` is the remaining iteration count of the
pre-computed `range`, `j` the loop variable, `matchLen` the running
`match_len`. -/
def matchLenGo (transW ttsW : List String) (ttsStart : ℕ) :
    ℕ → ℕ → ℕ → ℕ
  | 0, _, matchLen => matchLen
  | fuel + 1, j, matchLen =>
    match transW.get? matchLen, ttsW.get? (ttsStart + j) with
    | some tw, some sw =>
      if normTok tw = normTok sw then
        matchLenGo transW ttsW ttsStart fuel (j + 1) (matchLen + 1)
      else matchLen
    | _, _ => matchLen

/-- Value of `match_len` computed for one `tts_start` in `_strip_tts_echo`. -/
def matchLenAt (transW ttsW : List String) (ttsStart : ℕ) : ℕ :=
  matchLenGo transW ttsW ttsStart (min transW.length (ttsW.length - ttsStart)) 0 0

/-- Computation of `best_match_len`: the outer `for tts_start in range(len(tts_words))`
loop of `_strip_tts_echo`. -/
def bestMatchLen (transW ttsW : List String) : ℕ :=
  (List.range ttsW.length).foldl (fun best st => max best (matchLenAt transW ttsW st)) 0

/-- The fuzzy-stage count
`sum(1 for w in trans_words if w.rstrip(...) in tts_word_set)`. -/
def fuzzyMatchCount (transW ttsW : List String) : ℕ :=
  (transW.filter (fun w => normTok w ∈ ttsW.map normTok)).length

/-- Port of `AudioEngine._strip_tts_echo` from the source.  The float
comparison `match_count / len(trans_words) > 0.5` is expressed exactly as
`2 * match_count > len(trans_words)`. -/
def stripTtsEcho (transcription ttsText : String) : String :=
  let ttsWords := pySplit (pyLower ttsText)
  let transWords := pySplit (pyLower transcription)
  if transWords.length < 3 ∨ ttsWords.length < 3 then transcription
  else
    let best := bestMatchLen transWords ttsWords
    if 3 ≤ best then
      let remaining := pyStrip remStripChars
        (String.intercalate " " ((pySplit transcription).drop best))
      if remaining ≠ "" then remaining else "(silence)"
    else if 4 ≤ transWords.length ∧
        2 * fuzzyMatchCount transWords ttsWords > transWords.length then
      "(silence)"
    else transcription

/-- The spec-side "longest prefix of the transcript words equal to a
consecutive run of the TTS words": plain structural recursion, to be
compared with the literal loop port `matchLenAt`. -/
def runLen : List String → List String → ℕ
  | t :: ts, s :: ss => if normTok t = normTok s then runLen ts ss + 1 else 0
  | _, _ => 0

/-- Spec-side best run: the maximum over every possible starting index
into the TTS words of the longest matching prefix of transcript words. -/
def claimBestRun (transW ttsW : List String) : ℕ :=
  ((List.range ttsW.length).map (fun st => runLen transW (ttsW.drop st))).foldl max 0

/-! ## Facts about the echo-filter loops -/

theorem runLen_nil_right (a : List String) : runLen a [] = 0 := by
  cases a <;> rfl

theorem runLen_le_left : ∀ (a b : List String), runLen a b ≤ a.length
  | [], _ => by simp [runLen]
  | _ :: _, [] => by simp [runLen]
  | t :: ts, s :: ss => by
    rw [runLen]
    split
    · simpa using runLen_le_left ts ss
    · simp

theorem runLen_le_right : ∀ (a b : List String), runLen a b ≤ b.length
  | [], _ => by simp [runLen]
  | _ :: _, [] => by simp [runLen]
  | t :: ts, s :: ss => by
    rw [runLen]
    split
    · simpa using runLen_le_right ts ss
    · simp

theorem matchLenGo_eq (tW sW : List String) (st : ℕ) (fuel : ℕ) :
    ∀ (j ml : ℕ),
      matchLenGo tW sW st fuel j ml
        = ml + min fuel (runLen (tW.drop ml) (sW.drop (st + j))) := by
  induction fuel with
  | zero => intro j ml; simp [matchLenGo]
  | succ fuel ih =>
    intro j ml
    rw [matchLenGo]
    cases htw : tW.get? ml with
    | none =>
      have hd : tW.drop ml = [] :=
        List.drop_eq_nil_of_le (List.get?_eq_none.mp htw)
      simp [hd, runLen]
    | some tw =>
      cases hsw : sW.get? (st + j) with
      | none =>
        have hd : sW.drop (st + j) = [] :=
          List.drop_eq_nil_of_le (List.get?_eq_none.mp hsw)
        simp [hd, runLen_nil_right]
      | some sw =>
        have hml : ml < tW.length := by
          by_contra hc
          rw [List.get?_eq_none.mpr (Nat.le_of_not_lt hc)] at htw
          exact Option.noConfusion htw
        have hsj : st + j < sW.length := by
          by_contra hc
          rw [List.get?_eq_none.mpr (Nat.le_of_not_lt hc)] at hsw
          exact Option.noConfusion hsw
        have hgt : tW[ml] = tw := by
          have := htw
          rw [List.get?_eq_getElem? , List.getElem?_eq_getElem hml] at this
          exact Option.some.inj this
        have hgs : sW[st + j] = sw := by
          have := hsw
          rw [List.get?_eq_getElem? , List.getElem?_eq_getElem hsj] at this
          exact Option.some.inj this
        have hdt : tW.drop ml = tw :: tW.drop (ml + 1) := by
          rw [List.drop_eq_getElem_cons hml, hgt]
        have hds : sW.drop (st + j) = sw :: sW.drop (st + j + 1) := by
          rw [List.drop_eq_getElem_cons hsj, hgs]
        rw [hdt, hds, runLen]
        dsimp only
        by_cases heq : normTok tw = normTok sw
        · rw [if_pos heq, if_pos heq, ih (j + 1) (ml + 1)]
          have harg : st + (j + 1) = st + j + 1 := by omega
          rw [harg, Nat.succ_min_succ]
          omega
        · rw [if_neg heq, if_neg heq]
          simp

theorem matchLenAt_eq (tW sW : List String) (st : ℕ) :
    matchLenAt tW sW st = runLen tW (sW.drop st) := by
  rw [matchLenAt, matchLenGo_eq]
  have h1 := runLen_le_left tW (sW.drop st)
  have h2 := runLen_le_right tW (sW.drop st)
  rw [List.length_drop] at h2
  rw [Nat.add_zero, List.drop_zero]
  omega

theorem bestMatchLen_eq (tW sW : List String) :
    bestMatchLen tW sW = claimBestRun tW sW := by
  rw [bestMatchLen, claimBestRun, List.foldl_map]
  congr 1
  funext b st
  rw [matchLenAt_eq]

theorem foldl_max_le {l : List ℕ} {i B : ℕ} (hi : i ≤ B) (h : ∀ x ∈ l, x ≤ B) :
    l.foldl max i ≤ B := by
  induction l generalizing i with
  | nil => simpa using hi
  | cons x xs ih =>
    rw [List.foldl_cons]
    exact ih (max_le hi (h x (List.mem_cons_self _ _)))
      (fun y hy => h y (List.mem_cons_of_mem _ hy))

theorem claimBestRun_le_left (tW sW : List String) : claimBestRun tW sW ≤ tW.length := by
  refine foldl_max_le (Nat.zero_le _) ?_
  intro x hx
  obtain ⟨st, _, rfl⟩ := List.mem_map.mp hx
  exact runLen_le_left _ _

theorem claimBestRun_le_right (tW sW : List String) : claimBestRun tW sW ≤ sW.length := by
  refine foldl_max_le (Nat.zero_le _) ?_
  intro x hx
  obtain ⟨st, _, rfl⟩ := List.mem_map.mp hx
  calc runLen tW (sW.drop st) ≤ (sW.drop st).length := runLen_le_right _ _
    _ ≤ sW.length := by rw [List.length_drop]; omega

/-! ## Lowercasing does not change the word count -/

theorem toNat_ofNat_valid (n : ℕ) (h : n.isValidChar) : (Char.ofNat n).toNat = n := by
  rw [Char.ofNat, dif_pos h]; rfl

theorem char_eq_iff_toNat (c d : Char) : c = d ↔ c.toNat = d.toNat :=
  ⟨fun h => h ▸ rfl, fun h => Char.ext (UInt32.ext h)⟩

theorem isWs_toNat (c : Char) :
    c.isWhitespace = (decide (c.toNat = 32) || decide (c.toNat = 9) ||
      decide (c.toNat = 13) || decide (c.toNat = 10)) := by
  simp only [Char.isWhitespace, char_eq_iff_toNat]
  rfl

theorem isWs_toLower (c : Char) : (Char.toLower c).isWhitespace = c.isWhitespace := by
  by_cases h : c.toNat ≥ 65 ∧ c.toNat ≤ 90
  · have hl : Char.toLower c = Char.ofNat (c.toNat + 32) := by
      unfold Char.toLower; rw [if_pos h]
    rw [hl, isWs_toNat, isWs_toNat, toNat_ofNat_valid _ (Or.inl (by omega))]
    obtain ⟨h1, h2⟩ := h
    rw [decide_eq_false (by omega : ¬ (c.toNat + 32 = 32)),
        decide_eq_false (by omega : ¬ (c.toNat + 32 = 9)),
        decide_eq_false (by omega : ¬ (c.toNat + 32 = 13)),
        decide_eq_false (by omega : ¬ (c.toNat + 32 = 10)),
        decide_eq_false (by omega : ¬ (c.toNat = 32)),
        decide_eq_false (by omega : ¬ (c.toNat = 9)),
        decide_eq_false (by omega : ¬ (c.toNat = 13)),
        decide_eq_false (by omega : ¬ (c.toNat = 10))]
  · have hl : Char.toLower c = c := by
      unfold Char.toLower; rw [if_neg h]
    rw [hl]

theorem splitWsAux_map_toLower : ∀ (l acc : List Char),
    splitWsAux (l.map Char.toLower) (acc.map Char.toLower)
      = (splitWsAux l acc).map (List.map Char.toLower)
  | [], acc => by simp [splitWsAux]
  | c :: cs, acc => by
    rw [List.map_cons, splitWsAux, splitWsAux, isWs_toLower]
    by_cases h : c.isWhitespace
    · rw [if_pos h, if_pos h, List.map_cons]
      have := splitWsAux_map_toLower cs []
      simp only [List.map_nil] at this
      rw [this]
      simp
    · rw [if_neg h, if_neg h]
      have := splitWsAux_map_toLower cs (c :: acc)
      simpa using this

theorem pySplit_pyLower_length (s : String) :
    (pySplit (pyLower s)).length = (pySplit s).length := by
  have hdata : (pyLower s).data = s.data.map Char.toLower := rfl
  rw [pySplit, pySplit, hdata]
  have haux := splitWsAux_map_toLower s.data []
  simp only [List.map_nil] at haux
  rw [haux, List.filter_map, List.length_map, List.length_map, List.length_map]
  congr 1
  apply List.filter_congr
  intro a _
  simp [List.map_eq_nil_iff, Function.comp]

/-! ## Claims about the echo-text filter -/

/-- C4: for every transcript and TTS text, the echo-text filter computes,
over every possible starting index into the TTS words, the length of the
longest prefix of transcript words equal to a consecutive run of TTS words
starting there; if the best such run has length ≥ 3 it removes that many
words from the front of the transcript, and if the remaining text is empty
it returns `"(silence)"`. -/
theorem prefix_run_strip_behavior (t tts : String)
    (h : 3 ≤ claimBestRun (pySplit (pyLower t)) (pySplit (pyLower tts))) :
    stripTtsEcho t tts =
      (if pyStrip remStripChars (String.intercalate " "
            ((pySplit t).drop (claimBestRun (pySplit (pyLower t)) (pySplit (pyLower tts))))) = ""
       then "(silence)"
       else pyStrip remStripChars (String.intercalate " "
            ((pySplit t).drop (claimBestRun (pySplit (pyLower t)) (pySplit (pyLower tts)))))) := by
  have hL : ¬ ((pySplit (pyLower t)).length < 3 ∨ (pySplit (pyLower tts)).length < 3) := by
    push_neg
    exact ⟨le_trans h (claimBestRun_le_left _ _), le_trans h (claimBestRun_le_right _ _)⟩
  simp only [stripTtsEcho]
  rw [if_neg hL, bestMatchLen_eq, if_pos h]
  by_cases hr : pyStrip remStripChars (String.intercalate " "
      ((pySplit t).drop (claimBestRun (pySplit (pyLower t)) (pySplit (pyLower tts))))) = ""
  · rw [if_neg (not_not_intro hr), if_pos hr]
  · rw [if_pos hr, if_neg hr]

/-- Witness for C4: the spec's own example, `speak("Good morning friend")`
with transcript `"good morning friend how are you"`. -/
theorem prefix_run_strip_behavior_witness :
    3 ≤ claimBestRun (pySplit (pyLower "good morning friend how are you"))
        (pySplit (pyLower "good morning friend")) ∧
    stripTtsEcho "good morning friend how are you" "good morning friend" = "how are you" := by
  refine ⟨by decide, ?_⟩
  rw [prefix_run_strip_behavior "good morning friend how are you" "good morning friend"
    (by decide)]
  decide

/-- C10: the echo-text filter returns the transcript unchanged whenever the
transcript or the TTS text has fewer than 3 whitespace-separated words. -/
theorem short_inputs_unchanged (t tts : String)
    (h : (pySplit t).length < 3 ∨ (pySplit tts).length < 3) :
    stripTtsEcho t tts = t := by
  simp only [stripTtsEcho]
  rw [if_pos]
  rw [pySplit_pyLower_length, pySplit_pyLower_length]
  exact h

/-- Witness for C10 at a transcript of one word. -/
theorem short_inputs_unchanged_witness :
    ((pySplit "hello").length < 3 ∨ (pySplit "say something to me").length < 3) ∧
    stripTtsEcho "hello" "say something to me" = "hello" :=
  ⟨Or.inl (by decide),
    short_inputs_unchanged "hello" "say something to me" (Or.inl (by decide))⟩

/-- Counterexample to C5: a prefix strip of 3 words leaves `"z p q r s"`,
of which 4 of 5 words are in the TTS word set, yet the filter returns the
stripped remainder, not `"(silence)"` — the fuzzy stage is skipped as soon
as the prefix-run strip applies. -/
theorem fuzzy_after_strip_fails :
    stripTtsEcho "a b c z p q r s" "a b c p q r s t" = "z p q r s" ∧
    4 ≤ (pySplit "z p q r s").length ∧
    2 * fuzzyMatchCount (pySplit (pyLower "z p q r s")) (pySplit (pyLower "a b c p q r s t"))
        > (pySplit "z p q r s").length ∧
    stripTtsEcho "a b c z p q r s" "a b c p q r s t" ≠ "(silence)" := by decide

/-- C5 (amended): the fuzzy whole-sentence strip applies only when the
prefix-run strip did not (best run < 3): in that case, if the transcript
and the TTS text have ≥ 3 words each, the transcript has ≥ 4 words and
more than 50 % of them (trailing punctuation stripped, lowercase) appear
in the TTS word set, the filter returns `"(silence)"`. -/
theorem fuzzy_strip_when_no_prefix_run (t tts : String)
    (hw : 3 ≤ (pySplit tts).length)
    (h4 : 4 ≤ (pySplit t).length)
    (hb : claimBestRun (pySplit (pyLower t)) (pySplit (pyLower tts)) < 3)
    (hm : 2 * fuzzyMatchCount (pySplit (pyLower t)) (pySplit (pyLower tts))
        > (pySplit (pyLower t)).length) :
    stripTtsEcho t tts = "(silence)" := by
  simp only [stripTtsEcho]
  rw [if_neg, bestMatchLen_eq, if_neg (by omega), if_pos]
  · exact ⟨by rw [pySplit_pyLower_length]; omega, hm⟩
  · rw [pySplit_pyLower_length, pySplit_pyLower_length]
    omega

/-- Witness for C5 (amended): no 3-word run matches, but all four
transcript words occur in the TTS text. -/
theorem fuzzy_strip_when_no_prefix_run_witness :
    (3 ≤ (pySplit "p z q r s").length ∧ 4 ≤ (pySplit "p q r s").length ∧
     claimBestRun (pySplit (pyLower "p q r s")) (pySplit (pyLower "p z q r s")) < 3 ∧
     2 * fuzzyMatchCount (pySplit (pyLower "p q r s")) (pySplit (pyLower "p z q r s"))
        > (pySplit (pyLower "p q r s")).length) ∧
    stripTtsEcho "p q r s" "p z q r s" = "(silence)" :=
  ⟨⟨by decide, by decide, by decide, by decide⟩,
    fuzzy_strip_when_no_prefix_run "p q r s" "p z q r s"
      (by decide) (by decide) (by decide) (by decide)⟩

/-- Counterexample to C6: the echo filter is not idempotent.  With TTS text
`"a b c d"`, transcript `"b c d a b c x"` is first stripped (best run
`b c d` of length 3) to `"a b c x"`, which a second application strips
again to `"x"`. -/
theorem echo_filter_not_idempotent :
    stripTtsEcho (stripTtsEcho "b c d a b c x" "a b c d") "a b c d"
      ≠ stripTtsEcho "b c d a b c x" "a b c d" := by decide

theorem stripTtsEcho_silence_fixed (tts : String) :
    stripTtsEcho "(silence)" tts = "(silence)" := by
  simp only [stripTtsEcho]
  rw [if_pos (Or.inl (by decide))]

/-- C6 (amended): the echo filter is idempotent whenever its result is the
unchanged transcript or `"(silence)"`; idempotence can fail when a
prefix-run strip leaves a nonempty remainder. -/
theorem echo_filter_idempotent_on_fixed_or_silence (t tts : String)
    (h : stripTtsEcho t tts = t ∨ stripTtsEcho t tts = "(silence)") :
    stripTtsEcho (stripTtsEcho t tts) tts = stripTtsEcho t tts := by
  rcases h with h | h
  · rw [h]; exact h
  · rw [h]
    exact stripTtsEcho_silence_fixed tts

/-- Witness for C6 (amended) at a transcript the filter leaves unchanged. -/
theorem echo_filter_idempotent_witness :
    (stripTtsEcho "hi" "x" = "hi" ∨ stripTtsEcho "hi" "x" = "(silence)") ∧
    stripTtsEcho (stripTtsEcho "hi" "x") "x" = stripTtsEcho "hi" "x" :=
  ⟨Or.inl (by decide),
    echo_filter_idempotent_on_fixed_or_silence "hi" "x" (Or.inl (by decide))⟩

/-! ## The barge-in detector (`barge_in_monitor`)

One detector step is the body of the `while` loop of `barge_in_monitor`
applied to one mic frame (after the optional AEC pass).  A frame carries
its measured RMS as an exact rational, abstracting the float
`sqrt(mean(frame ** 2))`; `idx` identifies the frame.  Python's
`spike_count = max(0, spike_count - 1)` is ℕ-subtraction. -/

structure Frame where
  idx : ℕ
  rms : ℚ
deriving DecidableEq

/-- Constant `CALIBRATION_FRAMES = 8  # ~0.8s at 100ms/frame`. -/
def CALIBRATION_FRAMES : ℕ := 8

/-- The loop-local state of `barge_in_monitor`: `buffered_mic_frames`,
`baseline_rms`, `spike_count`, `frame_count`, `threshold`.  Generic in the
frame type `α` so the session model can run the detector over frames that
carry ghost history; `rms` extracts a frame's RMS. -/
structure DetectorState (α : Type) where
  buffered : List α
  baselineRms : List ℚ
  spikeCount : ℕ
  frameCount : ℕ
  threshold : ℚ
deriving DecidableEq

variable {α : Type}

def initDetector : DetectorState α := ⟨[], [], 0, 0, 0⟩

/-- Result of one loop iteration: either the updated state (the `continue`
paths), or the barge-in trigger, recording the re-enqueued frames and that
`os.kill(tts_pid, SIGTERM)` was issued and `tts_done_event` set. -/
inductive DetStep (α : Type) where
  | next (s : DetectorState α)
  | trigger (requeued : List α) (ttsDoneSet killSent : Bool)
deriving DecidableEq

def detectorStep (rms : α → ℚ) (aec : Bool) (s : DetectorState α) (f : α) : DetStep α :=
  let buffered := s.buffered ++ [f]
  let frameCount := s.frameCount + 1
  if frameCount ≤ CALIBRATION_FRAMES then
    let baselineRms := s.baselineRms ++ [rms f]
    let threshold :=
      if frameCount = CALIBRATION_FRAMES then
        let baseline := baselineRms.sum / (baselineRms.length : ℚ)
        if aec then max (baseline * 3) 400 else max (baseline * (5 / 2)) 1200
      else s.threshold
    .next ⟨buffered, baselineRms, s.spikeCount, frameCount, threshold⟩
  else
    let spikeCount := if rms f > s.threshold then s.spikeCount + 1 else s.spikeCount - 1
    if 4 ≤ spikeCount then
      .trigger (buffered.drop (buffered.length - 3)) true true
    else
      .next ⟨buffered, s.baselineRms, spikeCount, frameCount, s.threshold⟩

/-- What happened at a barge-in trigger: the frames put back on the mic
queue, the two effects, and the value of `buffered_mic_frames` then. -/
structure TriggerInfo (α : Type) where
  requeued : List α
  ttsDoneSet : Bool
  killSent : Bool
  bufferedAtTrigger : List α
deriving DecidableEq

/-- Run the detector over a stream of processed mic frames, stopping at
the first trigger (the monitor `return`s there). -/
def runDetector (rms : α → ℚ) (aec : Bool) :
    DetectorState α → List α → TriggerInfo α ⊕ DetectorState α
  | s, [] => .inr s
  | s, f :: fs =>
    match detectorStep rms aec s f with
    | .next s' => runDetector rms aec s' fs
    | .trigger rq td ks => .inl ⟨rq, td, ks, s.buffered ++ [f]⟩

/-- Detector invariant: the buffer holds every processed frame, and the
spike counter can only have been reached through that many
post-calibration frames. -/
def DInv (s : DetectorState α) : Prop :=
  s.buffered.length = s.frameCount ∧
  (s.spikeCount + CALIBRATION_FRAMES ≤ s.frameCount ∨
    (s.spikeCount = 0 ∧ s.frameCount ≤ CALIBRATION_FRAMES))

theorem dinv_init : DInv (initDetector (α := α)) := by
  constructor <;> simp [initDetector, CALIBRATION_FRAMES]

theorem dinv_next (rms : α → ℚ) (aec : Bool) (s : DetectorState α) (f : α)
    (s' : DetectorState α)
    (h : detectorStep rms aec s f = .next s') (hi : DInv s) : DInv s' := by
  obtain ⟨hlen, hspike⟩ := hi
  simp only [detectorStep, CALIBRATION_FRAMES] at h
  split at h
  · rename_i hcal
    injection h with h
    subst h
    refine ⟨by simp [hlen], ?_⟩
    simp only [CALIBRATION_FRAMES] at hspike ⊢
    omega
  · rename_i hcal
    split at h <;> split at h
    · exact DetStep.noConfusion h
    · rename_i hrms hspk
      injection h with h
      subst h
      refine ⟨by simp [hlen], ?_⟩
      simp only [CALIBRATION_FRAMES] at hspike ⊢
      omega
    · exact DetStep.noConfusion h
    · rename_i hrms hspk
      injection h with h
      subst h
      refine ⟨by simp [hlen], ?_⟩
      simp only [CALIBRATION_FRAMES] at hspike ⊢
      omega

theorem det_trigger (rms : α → ℚ) (aec : Bool) (s : DetectorState α) (f : α)
    (rq : List α) (td ks : Bool)
    (h : detectorStep rms aec s f = .trigger rq td ks) (hi : DInv s) :
    td = true ∧ ks = true ∧
    rq = (s.buffered ++ [f]).drop ((s.buffered ++ [f]).length - 3) ∧
    12 ≤ (s.buffered ++ [f]).length := by
  obtain ⟨hlen, hspike⟩ := hi
  simp only [detectorStep, CALIBRATION_FRAMES] at h
  split at h
  · exact DetStep.noConfusion h
  · rename_i hcal
    split at h <;> split at h
    · rename_i hrms hspk
      injection h with h1 h2 h3
      refine ⟨h2.symm, h3.symm, h1.symm, ?_⟩
      simp only [List.length_append, List.length_singleton]
      simp only [CALIBRATION_FRAMES] at hspike
      omega
    · exact DetStep.noConfusion h
    · rename_i hrms hspk
      injection h with h1 h2 h3
      refine ⟨h2.symm, h3.symm, h1.symm, ?_⟩
      simp only [List.length_append, List.length_singleton]
      simp only [CALIBRATION_FRAMES] at hspike
      omega
    · exact DetStep.noConfusion h

theorem runDetector_trigger (rms : α → ℚ) (aec : Bool) :
    ∀ (fs : List α) (s : DetectorState α) (info : TriggerInfo α),
      DInv s → runDetector rms aec s fs = .inl info →
      info.ttsDoneSet = true ∧ info.killSent = true ∧
      3 ≤ info.bufferedAtTrigger.length ∧
      info.requeued = info.bufferedAtTrigger.drop (info.bufferedAtTrigger.length - 3)
  | [], s, info, _, h => by simp [runDetector] at h
  | f :: fs, s, info, hi, h => by
    rw [runDetector] at h
    cases hstep : detectorStep rms aec s f with
    | next s' =>
      rw [hstep] at h
      exact runDetector_trigger rms aec fs s' info (dinv_next rms aec s f s' hstep hi) h
    | trigger rq td ks =>
      rw [hstep] at h
      injection h with h
      subst h
      obtain ⟨htd, hks, hrq, hlen⟩ := det_trigger rms aec s f rq td ks hstep hi
      refine ⟨htd, hks, ?_, hrq⟩
      dsimp only
      omega

/-- C1: when the detector's spike count reaches 4 it declares barge-in:
the TTS process receives a termination signal, `tts_done` is set, and
exactly the last three buffered mic frames, in order, are re-enqueued
into the mic queue; all earlier buffered frames are discarded. -/
theorem barge_in_replays_last_three (aec : Bool) (frames : List Frame)
    (info : TriggerInfo Frame)
    (h : runDetector Frame.rms aec initDetector frames = Sum.inl info) :
    info.ttsDoneSet = true ∧ info.killSent = true ∧
    info.requeued = info.bufferedAtTrigger.drop (info.bufferedAtTrigger.length - 3) ∧
    info.requeued.length = 3 ∧
    info.bufferedAtTrigger.take (info.bufferedAtTrigger.length - 3) ++ info.requeued
      = info.bufferedAtTrigger := by
  obtain ⟨htd, hks, hlen, hrq⟩ :=
    runDetector_trigger Frame.rms aec frames initDetector info dinv_init h
  refine ⟨htd, hks, hrq, ?_, ?_⟩
  · rw [hrq, List.length_drop]
    omega
  · rw [hrq, List.take_append_drop]

/-- A concrete triggering run: 8 silent calibration frames (baseline 0,
threshold 400 with AEC), then four loud frames. -/
def calFrames : List Frame :=
  [⟨1, 0⟩, ⟨2, 0⟩, ⟨3, 0⟩, ⟨4, 0⟩, ⟨5, 0⟩, ⟨6, 0⟩, ⟨7, 0⟩, ⟨8, 0⟩,
   ⟨9, 500⟩, ⟨10, 500⟩, ⟨11, 500⟩, ⟨12, 500⟩]

def calInfo : TriggerInfo Frame :=
  ⟨[⟨10, 500⟩, ⟨11, 500⟩, ⟨12, 500⟩], true, true, calFrames⟩

theorem runDetector_calFrames :
    runDetector Frame.rms true initDetector calFrames = Sum.inl calInfo := by
  norm_num [runDetector, detectorStep, initDetector, CALIBRATION_FRAMES, calFrames, calInfo]

/-- Witness for C1: the concrete run triggers and replays frames 10–12. -/
theorem barge_in_replays_last_three_witness :
    runDetector Frame.rms true initDetector calFrames = Sum.inl calInfo ∧
    (calInfo.ttsDoneSet = true ∧ calInfo.killSent = true ∧
     calInfo.requeued = calInfo.bufferedAtTrigger.drop (calInfo.bufferedAtTrigger.length - 3) ∧
     calInfo.requeued.length = 3 ∧
     calInfo.bufferedAtTrigger.take (calInfo.bufferedAtTrigger.length - 3) ++ calInfo.requeued
       = calInfo.bufferedAtTrigger) :=
  ⟨runDetector_calFrames, barge_in_replays_last_three true calFrames calInfo runDetector_calFrames⟩

/-- C3: after the 8 calibration frames the threshold is
`max(baseline * 3.0, 400)` with AEC and `max(baseline * 2.5, 1200)`
without, where `baseline` is the arithmetic mean of the 8 per-frame mic
RMS values. -/
theorem calibration_threshold_formula (aec : Bool) (f1 f2 f3 f4 f5 f6 f7 f8 : Frame) :
    runDetector Frame.rms aec initDetector [f1, f2, f3, f4, f5, f6, f7, f8] =
      Sum.inr ⟨[f1, f2, f3, f4, f5, f6, f7, f8],
        [f1.rms, f2.rms, f3.rms, f4.rms, f5.rms, f6.rms, f7.rms, f8.rms], 0, 8,
        (if aec
         then max (([f1.rms, f2.rms, f3.rms, f4.rms, f5.rms, f6.rms, f7.rms, f8.rms].sum / 8) * 3) 400
         else max (([f1.rms, f2.rms, f3.rms, f4.rms, f5.rms, f6.rms, f7.rms, f8.rms].sum / 8) * (5 / 2)) 1200)⟩ := by
  simp [runDetector, detectorStep, initDetector, CALIBRATION_FRAMES]

/-! ## One capture session (`_capture_utterance`)

A small-step transition system for one barge-in-enabled capture session,
covering the activities that touch mic frames: the mic-callback producer,
`barge_in_monitor`, `tts_monitor` (naturally ending TTS) and `send_audio`.
The event loop is single-threaded, so each transition is one atomic
(yield-free) block of one activity.

A session frame (`TFrame`) is a mic frame together with one bit of ghost
history: the value of `tts_done` at the moment the mic callback produced
it.  The code never reads this bit; it only serves to state C2. -/

abbrev TFrame : Type := Frame × Bool

/-- RMS of a session frame (the ghost bit carries no signal). -/
def tagRms (tf : TFrame) : ℚ := tf.1.rms

/-- Fixed facts of one `_capture_utterance` call: `barge_in_enabled`,
`tts_active` (`tts_pid > 0`), and whether `self.aec` is available. -/
structure Params where
  bargeEnabled : Bool
  ttsActive : Bool
  aec : Bool

/-- The mutable session state shared by the activities. -/
structure SState where
  ttsDone : Bool
  bargeTriggered : Bool
  micStarted : Bool
  sendStarted : Bool
  queue : List TFrame
  det : DetectorState TFrame
  requeued : List TFrame
  sent : List TFrame
deriving DecidableEq

/-- Session start: streams open (in barge-in mode), `tts_done_event` set
immediately when there is no TTS (`tts_pid == 0`). -/
def initState (P : Params) : SState :=
  ⟨!P.ttsActive, false, false, false, [], initDetector, [], []⟩

/-- Whether the mic stream is running: from the start in barge-in mode,
otherwise only once `send_audio` has started it. -/
def micOn (P : Params) (s : SState) : Bool := P.bargeEnabled || s.micStarted

/-- The mic callback enqueues a frame, ghost-tagged with the current
`tts_done`. -/
def produceEff (s : SState) (f : Frame) : SState :=
  { s with queue := s.queue ++ [(f, s.ttsDone)] }

/-- Step of `tts_monitor`: the TTS process is gone, set `tts_done_event`. -/
def ttsNatEff (s : SState) : SState := { s with ttsDone := true }

/-- The drain loop `while not audio_queue.empty(): mic_frame =
audio_queue.get_nowait()`: consumes the whole queue, keeps the last. -/
def drainLast : List TFrame → Option TFrame
  | [] => none
  | [x] => some x
  | _ :: x :: xs => drainLast (x :: xs)

/-- One iteration of the `barge_in_monitor` loop: drain the mic queue,
run the detector on the last frame; on trigger, kill TTS, set `tts_done`,
and re-enqueue the last three buffered frames. -/
def monEff (P : Params) (s : SState) : SState :=
  match drainLast s.queue with
  | none => s
  | some mic =>
    match detectorStep tagRms P.aec s.det mic with
    | .next d => { s with queue := [], det := d }
    | .trigger rq _ _ =>
      { s with queue := rq, requeued := rq, ttsDone := true, bargeTriggered := true }

/-- The prelude of `send_audio` after `tts_done_event.wait()` returns:
flush the contaminated queue unless the transition was via barge-in, and
start the mic stream when barge-in did not already. -/
def sendStartEff (P : Params) (s : SState) : SState :=
  { s with sendStarted := true, micStarted := true,
           queue := if P.ttsActive && !s.bargeTriggered then [] else s.queue }

/-- One iteration of the `send_audio` loop: pop the front frame and send
its PCM bytes to the recognizer. -/
def sendFrameEff (s : SState) (f : TFrame) (rest : List TFrame) : SState :=
  { s with queue := rest, sent := s.sent ++ [f] }

/-- The atomic transitions of the session, with their enabling guards as
read off the source. -/
inductive Step (P : Params) : SState → SState → Prop
  | produce (s : SState) (f : Frame) (hmic : micOn P s = true) :
      Step P s (produceEff s f)
  | ttsNatural (s : SState) (hact : P.ttsActive = true) (hnd : s.ttsDone = false) :
      Step P s (ttsNatEff s)
  | monStep (s : SState) (hbe : P.bargeEnabled = true) (hnd : s.ttsDone = false)
      (hnb : s.bargeTriggered = false) : Step P s (monEff P s)
  | sendStartStep (s : SState) (hd : s.ttsDone = true) (hns : s.sendStarted = false) :
      Step P s (sendStartEff P s)
  | sendFrameStep (s : SState) (f : TFrame) (rest : List TFrame)
      (hs : s.sendStarted = true) (hq : s.queue = f :: rest) :
      Step P s (sendFrameEff s f rest)

inductive Reachable (P : Params) : SState → Prop
  | init : Reachable P (initState P)
  | step {s t : SState} : Reachable P s → Step P s t → Reachable P t

/-- A frame produced while `tts_done` was false may only circulate if the
barge-in trigger re-enqueued it. -/
def TagOK (s : SState) (tf : TFrame) : Prop := tf.2 = false → tf ∈ s.requeued

/-- The session invariant behind C2. -/
def Inv (P : Params) (s : SState) : Prop :=
  (s.sendStarted = true → s.ttsDone = true) ∧
  (s.bargeTriggered = true → s.ttsDone = true) ∧
  (P.ttsActive = false → s.ttsDone = true) ∧
  (s.bargeTriggered = false → s.requeued = []) ∧
  (P.ttsActive = false → ∀ tf ∈ s.queue, tf.2 = true) ∧
  ((s.sendStarted = true ∨ s.bargeTriggered = true) → ∀ tf ∈ s.queue, TagOK s tf) ∧
  (∀ tf ∈ s.sent, TagOK s tf)

theorem inv_init (P : Params) : Inv P (initState P) := by
  refine ⟨?_, ?_, ?_, ?_, ?_, ?_, ?_⟩ <;> simp [initState, TagOK]

theorem inv_step (P : Params) (s t : SState) (hs : Step P s t) (hi : Inv P s) : Inv P t := by
  obtain ⟨h1, h2, h3, h4, h5, h6, h7⟩ := hi
  cases hs with
  | produce f hmic =>
    refine ⟨h1, h2, h3, h4, ?_, ?_, ?_⟩
    · intro hact tf htf
      simp only [produceEff, List.mem_append, List.mem_singleton] at htf
      rcases htf with htf | rfl
      · exact h5 hact tf htf
      · exact h3 hact
    · intro hflag tf htf hfalse
      simp only [produceEff, List.mem_append, List.mem_singleton] at htf
      rcases htf with htf | rfl
      · exact h6 hflag tf htf hfalse
      · exfalso
        have hdone : s.ttsDone = true := by
          rcases hflag with hss | hbt
          · exact h1 hss
          · exact h2 hbt
        rw [hdone] at hfalse
        exact Bool.noConfusion hfalse
    · intro tf htf hfalse
      exact h7 tf htf hfalse
  | ttsNatural hact hnd =>
    refine ⟨fun _ => rfl, fun _ => rfl, fun _ => rfl, h4, ?_, ?_, ?_⟩
    · intro hna
      rw [hna] at hact
      exact Bool.noConfusion hact
    · intro hflag tf htf hfalse
      exact h6 hflag tf htf hfalse
    · intro tf htf hfalse
      exact h7 tf htf hfalse
  | monStep hbe hnd hnb =>
    have hss : s.sendStarted = false := by
      cases hc : s.sendStarted
      · rfl
      · rw [h1 hc] at hnd
        exact Bool.noConfusion hnd
    have hreq : s.requeued = [] := h4 hnb
    have hta : P.ttsActive = true := by
      cases hc : P.ttsActive
      · rw [h3 hc] at hnd
        exact Bool.noConfusion hnd
      · rfl
    cases hdl : drainLast s.queue with
    | none =>
      simp only [monEff, hdl]
      exact ⟨h1, h2, h3, h4, h5, h6, h7⟩
    | some mic =>
      cases hds : detectorStep tagRms P.aec s.det mic with
      | next d =>
        simp only [monEff, hdl, hds]
        refine ⟨?_, h2, h3, h4, ?_, ?_, ?_⟩
        · intro hc
          rw [hss] at hc
          exact Bool.noConfusion hc
        · intro _ tf htf
          simp at htf
        · intro _ tf htf
          simp at htf
        · intro tf htf hfalse
          exact h7 tf htf hfalse
      | trigger rq td ks =>
        simp only [monEff, hdl, hds]
        refine ⟨fun _ => rfl, fun _ => rfl, fun _ => rfl, ?_, ?_, ?_, ?_⟩
        · intro hc
          exact Bool.noConfusion hc
        · intro hna
          rw [hna] at hta
          exact Bool.noConfusion hta
        · intro _ tf htf hfalse
          exact htf
        · intro tf htf hfalse
          exfalso
          have hmem := h7 tf htf hfalse
          rw [hreq] at hmem
          simp at hmem
  | sendStartStep hd hns =>
    refine ⟨fun _ => hd, fun _ => hd, fun _ => hd, h4, ?_, ?_, ?_⟩
    · intro hna tf htf
      simp only [sendStartEff] at htf
      rw [hna] at htf
      simp only [Bool.false_and, Bool.false_eq_true, if_false] at htf
      exact h5 hna tf htf
    · intro _ tf htf
      simp only [sendStartEff] at htf
      by_cases hcond : (P.ttsActive && !s.bargeTriggered) = true
      · rw [if_pos hcond] at htf
        simp at htf
      · rw [if_neg hcond] at htf
        simp only [Bool.and_eq_true, Bool.not_eq_true', not_and_or] at hcond
        intro hfalse
        rcases hcond with hna | hbt
        · exfalso
          have htag := h5 (by simpa using hna) tf htf
          rw [htag] at hfalse
          exact Bool.noConfusion hfalse
        · exact h6 (Or.inr (by simpa using hbt)) tf htf hfalse
    · intro tf htf hfalse
      exact h7 tf htf hfalse
  | sendFrameStep f rest hsS hq =>
    refine ⟨fun _ => h1 hsS, h2, h3, h4, ?_, ?_, ?_⟩
    · intro hna tf htf
      simp only [sendFrameEff] at htf
      exact h5 hna tf (hq ▸ List.mem_cons_of_mem f htf)
    · intro hflag tf htf hfalse
      simp only [sendFrameEff] at htf
      exact h6 hflag tf (hq ▸ List.mem_cons_of_mem f htf) hfalse
    · intro tf htf hfalse
      simp only [sendFrameEff, List.mem_append, List.mem_singleton] at htf
      rcases htf with htf | rfl
      · exact h7 tf htf hfalse
      · exact h6 (Or.inl hsS) tf (hq ▸ List.mem_cons_self tf rest) hfalse

theorem reachable_inv (P : Params) (s : SState) (h : Reachable P s) : Inv P s := by
  induction h with
  | init => exact inv_init P
  | step _ hstep ih => exact inv_step P _ _ hstep ih

/-- C2: in any reachable session state, a mic frame produced while
`tts_done` was false (so before TTS ended and before any barge-in) is
sent to the recognizer only if the barge-in trigger re-enqueued it among
the last three buffered frames. -/
theorem no_pre_tts_frame_sent (P : Params) (s : SState) (hr : Reachable P s)
    (tf : TFrame) (hsent : tf ∈ s.sent) (hpre : tf.2 = false) :
    tf ∈ s.requeued :=
  (reachable_inv P s hr).2.2.2.2.2.2 tf hsent hpre

/-! ### A concrete barge-in run, to witness C2 on a reachable state -/

/-- Guard-checked executable form of `Step`, to exhibit reachable states
by computation. -/
inductive Act where
  | produce (f : Frame)
  | ttsNat
  | mon
  | sendStart
  | sendFrame

def applyAct (P : Params) (s : SState) : Act → Option SState
  | .produce f => if micOn P s = true then some (produceEff s f) else none
  | .ttsNat =>
    if P.ttsActive = true ∧ s.ttsDone = false then some (ttsNatEff s) else none
  | .mon =>
    if P.bargeEnabled = true ∧ s.ttsDone = false ∧ s.bargeTriggered = false
    then some (monEff P s) else none
  | .sendStart =>
    if s.ttsDone = true ∧ s.sendStarted = false then some (sendStartEff P s) else none
  | .sendFrame =>
    match s.queue with
    | f :: rest => if s.sendStarted = true then some (sendFrameEff s f rest) else none
    | [] => none

theorem applyAct_step (P : Params) (s t : SState) (a : Act)
    (h : applyAct P s a = some t) : Step P s t := by
  cases a with
  | produce f =>
    simp only [applyAct] at h
    split at h
    · rename_i hg
      injection h with h
      subst h
      exact .produce s f hg
    · exact Option.noConfusion h
  | ttsNat =>
    simp only [applyAct] at h
    split at h
    · rename_i hg
      injection h with h
      subst h
      exact .ttsNatural s hg.1 hg.2
    · exact Option.noConfusion h
  | mon =>
    simp only [applyAct] at h
    split at h
    · rename_i hg
      injection h with h
      subst h
      exact .monStep s hg.1 hg.2.1 hg.2.2
    · exact Option.noConfusion h
  | sendStart =>
    simp only [applyAct] at h
    split at h
    · rename_i hg
      injection h with h
      subst h
      exact .sendStartStep s hg.1 hg.2
    · exact Option.noConfusion h
  | sendFrame =>
    simp only [applyAct] at h
    cases hq : s.queue with
    | nil =>
      rw [hq] at h
      exact Option.noConfusion h
    | cons f rest =>
      rw [hq] at h
      dsimp only at h
      split at h
      · rename_i hg
        injection h with h
        subst h
        exact .sendFrameStep s f rest hg hq
      · exact Option.noConfusion h

def runActs (P : Params) : SState → List Act → Option SState
  | s, [] => some s
  | s, a :: rest =>
    match applyAct P s a with
    | some t => runActs P t rest
    | none => none

theorem runActs_reachable (P : Params) :
    ∀ (acts : List Act) (s t : SState),
      Reachable P s → runActs P s acts = some t → Reachable P t
  | [], s, t, hr, h => by
    rw [runActs] at h
    injection h with h
    subst h
    exact hr
  | a :: rest, s, t, hr, h => by
    rw [runActs] at h
    cases ha : applyAct P s a with
    | none =>
      rw [ha] at h
      exact Option.noConfusion h
    | some u =>
      rw [ha] at h
      exact runActs_reachable P rest u t (hr.step (applyAct_step P s u a ha)) h

/-- Barge-in-enabled session with TTS and AEC. -/
def Pw : Params := ⟨true, true, true⟩

def wFrame (i : ℕ) : Frame := ⟨i, if i ≤ 8 then 0 else 500⟩

def wtf (i : ℕ) : TFrame := (wFrame i, false)

/-- Twelve mic-callback/monitor rounds (8 silent calibration frames, then
4 loud ones triggering barge-in), then `send_audio` starts and sends one
frame. -/
def wActs : List Act :=
  [.produce (wFrame 1), .mon, .produce (wFrame 2), .mon, .produce (wFrame 3), .mon,
   .produce (wFrame 4), .mon, .produce (wFrame 5), .mon, .produce (wFrame 6), .mon,
   .produce (wFrame 7), .mon, .produce (wFrame 8), .mon, .produce (wFrame 9), .mon,
   .produce (wFrame 10), .mon, .produce (wFrame 11), .mon, .produce (wFrame 12), .mon,
   .sendStart, .sendFrame]

def wFinal : SState :=
  { ttsDone := true, bargeTriggered := true, micStarted := true, sendStarted := true,
    queue := [wtf 11, wtf 12],
    det := ⟨[wtf 1, wtf 2, wtf 3, wtf 4, wtf 5, wtf 6, wtf 7, wtf 8, wtf 9, wtf 10, wtf 11],
            [0, 0, 0, 0, 0, 0, 0, 0], 3, 11, 400⟩,
    requeued := [wtf 10, wtf 11, wtf 12],
    sent := [wtf 10] }

theorem runActs_wActs : runActs Pw (initState Pw) wActs = some wFinal := by
  norm_num [runActs, applyAct, initState, Pw, wActs, wFrame, wtf, micOn, produceEff,
    ttsNatEff, monEff, drainLast, detectorStep, sendStartEff, sendFrameEff, initDetector,
    CALIBRATION_FRAMES, tagRms, wFinal]

theorem wFinal_reachable : Reachable Pw wFinal :=
  runActs_reachable Pw wActs (initState Pw) wFinal Reachable.init runActs_wActs

/-- Witness for C2: in the concrete run, frame 10 was produced during TTS
(`tts_done` false), was sent, and is indeed one of the three re-enqueued
frames. -/
theorem no_pre_tts_frame_sent_witness :
    Reachable Pw wFinal ∧ wtf 10 ∈ wFinal.sent ∧ (wtf 10).2 = false ∧
    wtf 10 ∈ wFinal.requeued :=
  ⟨wFinal_reachable, by simp [wFinal], rfl,
    no_pre_tts_frame_sent Pw wFinal wFinal_reachable (wtf 10) (by simp [wFinal]) rfl⟩

/-! ## Transcript accumulation (`recv_transcription`)

A recognizer message carries the committed `lines` texts and the unstable
`buffer_transcription`.  The bracketed hallucination-token substitution is
the identity on every message used below and is not modelled. -/

structure WlkMsg where
  lines : List String
  buffer : String
deriving DecidableEq

/-- Strip of leading and trailing whitespace (Python `str.strip()`). -/
def pyStripWs (s : String) : String :=
  ⟨((s.data.dropWhile Char.isWhitespace).reverse.dropWhile Char.isWhitespace).reverse⟩

/-- Computation `combined = (lines_text + " " + buffer_text).strip()` with
`lines_text = " ".join(...).strip()` and `buffer_text = buffer.strip()`. -/
def combinedText (m : WlkMsg) : String :=
  let linesText := pyStripWs (String.intercalate " " m.lines)
  let bufferText := pyStripWs m.buffer
  pyStripWs (linesText ++ " " ++ bufferText)

/-- The receiver state: `text_result` and `got_text`. -/
structure RState where
  text_result : String
  got_text : Bool
deriving DecidableEq

def initRState : RState := ⟨"", false⟩

/-- Applying one recognizer message:
`if combined and combined != text_result: text_result = combined; ...;
got_text = True`. -/
def recvStep (s : RState) (m : WlkMsg) : RState :=
  let combined := combinedText m
  if combined ≠ "" ∧ combined ≠ s.text_result then ⟨combined, true⟩ else s

def recvRun (s : RState) (ms : List WlkMsg) : RState := ms.foldl recvStep s

/-- Counterexample to C7: two genuine updates — `"hello world"` then a
shorter full transcript `"hi"` — make `text_result` shrink from 11
characters to 2; the receiver replaces, it does not grow. -/
theorem text_result_can_shrink :
    (recvStep initRState ⟨["hello world"], ""⟩).text_result = "hello world" ∧
    (recvStep initRState ⟨["hello world"], ""⟩).got_text = true ∧
    (recvStep (recvStep initRState ⟨["hello world"], ""⟩) ⟨["hi"], ""⟩).text_result = "hi" ∧
    (recvStep (recvStep initRState ⟨["hello world"], ""⟩) ⟨["hi"], ""⟩).got_text = true ∧
    (recvStep (recvStep initRState ⟨["hello world"], ""⟩) ⟨["hi"], ""⟩).text_result.length
      < (recvStep initRState ⟨["hello world"], ""⟩).text_result.length := by decide

/-- C7 (amended): over any sequence of recognizer messages, once
`got_text` is set it never clears, and `text_result` is only ever replaced
by a different nonempty string — once nonempty it never becomes empty,
though its length may decrease between updates. -/
theorem recv_got_text_monotone (s : RState) (ms : List WlkMsg)
    (hg : s.got_text = true) :
    (recvRun s ms).got_text = true ∧
    (s.text_result ≠ "" → (recvRun s ms).text_result ≠ "") := by
  induction ms generalizing s with
  | nil => exact ⟨hg, fun h => h⟩
  | cons m rest ih =>
    rw [recvRun, List.foldl_cons]
    have hstep : (recvStep s m).got_text = true ∧
        (s.text_result ≠ "" → (recvStep s m).text_result ≠ "") := by
      rw [recvStep]
      split
      · rename_i hcond
        exact ⟨rfl, fun _ => hcond.1⟩
      · exact ⟨hg, fun h => h⟩
    obtain ⟨hg', hne'⟩ := hstep
    obtain ⟨hgr, hner⟩ := ih (recvStep s m) hg'
    exact ⟨hgr, fun h => hner (hne' h)⟩

/-- Witness for C7 (amended): a state with text already received, one
further message. -/
theorem recv_got_text_monotone_witness :
    (recvRun ⟨"hi", true⟩ [⟨["hi there"], ""⟩]).got_text = true ∧
    (recvRun ⟨"hi", true⟩ [⟨["hi there"], ""⟩]).text_result ≠ "" :=
  ⟨(recv_got_text_monotone ⟨"hi", true⟩ [⟨["hi there"], ""⟩] rfl).1,
   (recv_got_text_monotone ⟨"hi", true⟩ [⟨["hi there"], ""⟩] rfl).2 (by decide)⟩

/-! ## The session coordinator (`listen`, `drain_buffer`,
`speak_and_listen`) -/

/-- Observable resource effects of `_capture_utterance`. -/
inductive CapEffect where
  | micStreamOpened
  | refStreamOpened
  | wsConnected
deriving DecidableEq

/-- Outcome of one `_capture_utterance` call: the text it returns and the
resource effects it performs. -/
structure CapOutcome where
  text : String
  effects : List CapEffect

/-- Port of `AudioEngine.listen`: under the session lock, return `"(muted)"`
before doing anything else when the mute flag is set; otherwise run the
capture and map the empty transcription to `"(silence)"`. -/
def listenOp (muted : Bool) (cap : CapOutcome) : String × List CapEffect :=
  if muted then ("(muted)", [])
  else (if cap.text = "" then "(silence)" else cap.text, cap.effects)

/-- C8: `listen()` under mute returns `"(muted)"` and performs no capture
effect — in particular no device stream is opened. -/
theorem listen_muted_no_capture (cap : CapOutcome) :
    (listenOp true cap).1 = "(muted)" ∧ (listenOp true cap).2 = [] ∧
    CapEffect.micStreamOpened ∉ (listenOp true cap).2 :=
  ⟨rfl, rfl, by simp [listenOp]⟩

/-- The single-slot buffered result (`self._buffered_text`). -/
structure BufState where
  bufferedText : Option String
deriving DecidableEq

/-- Port of `drain_buffer`: return the buffered text if present, clearing the
slot. -/
def drainBufferOp (s : BufState) : Option String × BufState :=
  match s.bufferedText with
  | some t => (some t, ⟨none⟩)
  | none => (none, s)

/-- Which branch `speak_and_listen` took. -/
inductive SpeakPath where
  | bufferHit
  | mutedNoCapture
  | ttsFailed
  | fullSession
deriving DecidableEq

/-- The non-buffered flow of `speak_and_listen`: speak-only under mute,
`"(silence)"` when the TTS spawn fails, otherwise TTS plus capture. -/
def speakFlow (s : BufState) (muted ttsOk : Bool) (captureResult : String) :
    String × BufState × SpeakPath :=
  if muted then ("(muted)", s, .mutedNoCapture)
  else if ttsOk then (captureResult, s, .fullSession)
  else ("(silence)", s, .ttsFailed)

/-- Port of `speak_and_listen`: drain the buffer first; only a nonempty,
non-sentinel buffered text short-circuits the call
(`if buffered and buffered not in ("(silence)", "(muted)")`). -/
def speakAndListenOp (s : BufState) (muted ttsOk : Bool) (captureResult : String) :
    String × BufState × SpeakPath :=
  match drainBufferOp s with
  | (some b, s') =>
    if b ≠ "" ∧ b ≠ "(silence)" ∧ b ≠ "(muted)" then (b, s', .bufferHit)
    else speakFlow s' muted ttsOk captureResult
  | (none, s') => speakFlow s' muted ttsOk captureResult

/-- C9: whenever a buffered result is present, the call consumes it (the
slot is cleared); a buffered sentinel (`"(silence)"` or `"(muted)"`) is
discarded: the call never takes the buffer-hit branch, and (when not
muted and TTS spawns) runs a normal TTS-plus-capture session whose
result, not the buffered sentinel, is returned. -/
theorem sentinel_buffer_consumed_not_returned (s : BufState) (b : String)
    (muted ttsOk : Bool) (cap : String)
    (hb : s.bufferedText = some b) :
    (speakAndListenOp s muted ttsOk cap).2.1 = ⟨none⟩ ∧
    (b = "(silence)" ∨ b = "(muted)" →
      (speakAndListenOp s muted ttsOk cap).2.2 ≠ SpeakPath.bufferHit ∧
      (muted = false → ttsOk = true →
        (speakAndListenOp s muted ttsOk cap).1 = cap ∧
        (speakAndListenOp s muted ttsOk cap).2.2 = SpeakPath.fullSession)) := by
  by_cases hhit : b ≠ "" ∧ b ≠ "(silence)" ∧ b ≠ "(muted)"
  · have hrun : speakAndListenOp s muted ttsOk cap = (b, ⟨none⟩, .bufferHit) := by
      rw [speakAndListenOp, drainBufferOp, hb]
      dsimp only
      rw [if_pos hhit]
    refine ⟨by rw [hrun], ?_⟩
    rintro (rfl | rfl)
    · exact absurd rfl hhit.2.1
    · exact absurd rfl hhit.2.2
  · have hrun : speakAndListenOp s muted ttsOk cap = speakFlow ⟨none⟩ muted ttsOk cap := by
      rw [speakAndListenOp, drainBufferOp, hb]
      dsimp only
      rw [if_neg hhit]
    refine ⟨?_, fun _ => ⟨?_, ?_⟩⟩
    · rw [hrun, speakFlow]
      split
      · rfl
      · split <;> rfl
    · rw [hrun, speakFlow]
      split
      · simp
      · split <;> simp
    · intro hm ht
      rw [hrun, speakFlow, hm, ht]
      exact ⟨rfl, rfl⟩

/-- Witness for C9: a buffered `"(silence)"`, unmuted, TTS succeeds. -/
theorem sentinel_buffer_witness :
    (speakAndListenOp ⟨some "(silence)"⟩ false true "ok").2.1 = ⟨none⟩ ∧
    (speakAndListenOp ⟨some "(silence)"⟩ false true "ok").2.2 ≠ SpeakPath.bufferHit ∧
    (speakAndListenOp ⟨some "(silence)"⟩ false true "ok").1 = "ok" ∧
    (speakAndListenOp ⟨some "(silence)"⟩ false true "ok").2.2 = SpeakPath.fullSession := by
  have h := sentinel_buffer_consumed_not_returned ⟨some "(silence)"⟩ "(silence)"
    false true "ok" rfl
  exact ⟨h.1, (h.2 (Or.inl rfl)).1, ((h.2 (Or.inl rfl)).2 rfl rfl).1,
    ((h.2 (Or.inl rfl)).2 rfl rfl).2⟩

end ClaudeTalk
